import Mathlib

/-!
Verification of the normalization / aggregation / filtering core of the
administrative-procedures dashboard (`streamlit_app.py`).

Strings are modelled as `List Char` (Python `str` after coercion), null-like
dataframe cells as explicit constructors.  All definitions are translated
from the source file; the one exception (`topn_with_other`) is modelled from
the spec and marked as such in its doc comment.
-/

namespace Proc

/-- Python whitespace as used by `str.strip()`, restricted to the whitespace
characters that can occur in this dataset (ASCII whitespace plus the
ideographic space U+3000). -/
def isSpace (c : Char) : Bool :=
  c = ' ' || c = '\t' || c = '\n' || c = '\r' || c = '\x0b' || c = '\x0c' || c = '　'

/-- ASCII lowercasing, enough to evaluate `s.lower() == 'nan'`. -/
def asciiLower (c : Char) : Char :=
  if 'A' ≤ c ∧ c ≤ 'Z' then Char.ofNat (c.toNat + 32) else c

/-- `s.lower()` (ASCII fragment). -/
def lower (l : List Char) : List Char := l.map asciiLower

/-- Decimal digits matched by the regex `\d` in this dataset: ASCII digits and
full-width digits. -/
def isDigitJ (c : Char) : Bool :=
  ('0' ≤ c ∧ c ≤ '9') || ('０' ≤ c ∧ c ≤ '９')

/-- Remove trailing whitespace (`str.rstrip()`). -/
def rstrip (l : List Char) : List Char :=
  (l.reverse.dropWhile isSpace).reverse

/-- Python `str.strip()`. -/
def strip (l : List Char) : List Char :=
  rstrip (l.dropWhile isSpace)

/-- `s.replace('(', '（').replace(')', '）')`, pointwise. -/
def parenMap (c : Char) : Char :=
  if c = '(' then '（' else if c = ')' then '）' else c

def mapParen (l : List Char) : List Char := l.map parenMap

/-- Worker for `replaceAll`; the fuel argument (instantiated with the input
length) makes the recursion structural so that the kernel can evaluate it.
When a non-empty `pat` is a prefix, at least one character is consumed, so
`l.length` fuel always suffices. -/
def replaceAllF (pat rep : List Char) : Nat → List Char → List Char
  | _, [] => []
  | 0, l => l
  | fuel + 1, c :: cs =>
    if pat ≠ [] ∧ pat.isPrefixOf (c :: cs) then
      rep ++ replaceAllF pat rep fuel ((c :: cs).drop pat.length)
    else
      c :: replaceAllF pat rep fuel cs

/-- Python `str.replace(pat, rep)`: replace every non-overlapping occurrence
of `pat`, scanning left to right. -/
def replaceAll (pat rep l : List Char) : List Char :=
  replaceAllF pat rep l.length l

/-- After the leading digits of the classification code: consume an optional
`-digits` group (the regex `(?:-\d+)?`, which participates only when a `-`
followed by at least one digit comes next), then trailing whitespace
(`\s*`). -/
def codeStripTail (rest : List Char) : List Char :=
  (if rest.head? = some '-' ∧ rest.tail.takeWhile isDigitJ ≠ [] then
      rest.tail.dropWhile isDigitJ
    else rest).dropWhile isSpace

/-- `re.sub(r"^\s*\d+(?:-\d+)?\s*", "", s)`: strip one leading ordinal
classification code (optional whitespace, one or more digits, optional
`-digits`, trailing whitespace); if the pattern does not match, return `s`
unchanged. -/
def codeStrip (l : List Char) : List Char :=
  if (l.dropWhile isSpace).takeWhile isDigitJ = [] then l
  else codeStripTail ((l.dropWhile isSpace).dropWhile isDigitJ)

/-- The spelling-variant substitution pattern for `手続類型`. -/
def kofuPat : List Char := "交付等(民間手続)".data

def kofuRep : List Char := "交付等（民間手続）".data

/-- The non-null path of `_normalize_label`: unify ASCII parentheses to
full-width, strip a leading classification code for the two coded fields,
and absorb one known spelling variant for `手続類型`. -/
def postProcess (key : String) (s : List Char) : List Char :=
  if key = "手続類型" then
    replaceAll kofuPat kofuRep
      (if key = "オンライン化の実施状況" ∨ key = "手続類型" then codeStrip (mapParen s)
        else mapParen s)
  else
    (if key = "オンライン化の実施状況" ∨ key = "手続類型" then codeStrip (mapParen s)
      else mapParen s)

/-- `_normalize_label(key, val)` from `streamlit_app.py`: strip, keep
null-like sentinels unchanged, then apply `postProcess`. -/
def normalize_label (key : String) (val : List Char) : List Char :=
  if lower (strip val) = ['n', 'a', 'n'] ∨ strip val = [] then strip val
  else postProcess key (strip val)

example : normalize_label "手続類型" "1 2X".data = "2X".data := by decide
example : normalize_label "手続類型" "2X".data = "X".data := by decide
example : normalize_label "手続類型" "2-1 審査・決定".data = "審査・決定".data := by decide
example : normalize_label "法令名" "  foo(bar)  ".data = "foo（bar）".data := by decide
example : normalize_label "法令名" " NaN ".data = "NaN".data := by decide

/-! ## Multi-value splitting (`split_multi_value`) -/

/-- A raw Python value as it reaches `split_multi_value`: `None`, a float NaN,
or a string. -/
inductive PyVal where
  | none
  | nanFloat
  | str (s : List Char)
deriving DecidableEq

/-- The character class of the regex `[、,;\n・／/]+` (line 246 of the
source): ideographic comma, ASCII comma, ASCII semicolon, newline, middle
dot, full-width slash, ASCII slash. -/
def isDelim (c : Char) : Bool :=
  c = '、' || c = ',' || c = ';' || c = '\n' || c = '・' || c = '／' || c = '/'

/-- Worker for `re.split(r"[、,;\n・／/]+", text)`: `cur` is the current
segment reversed; a maximal run of delimiter characters closes one segment.
Fuel (instantiated with the input length) keeps the recursion structural. -/
def reSplitF (cur : List Char) : Nat → List Char → List (List Char)
  | _, [] => [cur.reverse]
  | 0, _ => [cur.reverse]
  | fuel + 1, c :: cs =>
    if isDelim c then cur.reverse :: reSplitF [] fuel (cs.dropWhile isDelim)
    else reSplitF (c :: cur) fuel cs

/-- `re.split(r"[、,;\n・／/]+", text)`. -/
def reSplit (l : List Char) : List (List Char) :=
  reSplitF [] l.length l

/-- `split_multi_value(value)` from `streamlit_app.py`. -/
def split_multi_value (value : PyVal) : List (List Char) :=
  match value with
  | .none => []
  | .nanFloat => []
  | .str v =>
    if strip v = [] ∨ lower (strip v) = ['n', 'a', 'n'] then []
    else
      (reSplit (strip v)).filterMap fun p =>
        if p ≠ [] ∧ strip p ≠ [] then some (strip p) else none

example : split_multi_value (.str "A、B".data) = ["A".data, "B".data] := by decide
example : split_multi_value (.str "A，B".data) = ["A，B".data] := by decide
example : split_multi_value (.str "A；B".data) = ["A；B".data] := by decide
example : split_multi_value (.str "A 、、 B ・C".data) = ["A".data, "B".data, "C".data] := by
  decide
example : split_multi_value (.str "  ".data) = [] := by decide
example : split_multi_value (.str "nan".data) = [] := by decide
example : split_multi_value (.str "B、A、B".data) = ["B".data, "A".data, "B".data] := by decide

/-! ## Frequency tables (`value_counts`) -/

/-- The distinct values of a list in first-occurrence order (the index set of
a pandas `value_counts`). Fuel keeps the recursion structural. -/
def firstOccsF {α : Type} [DecidableEq α] : Nat → List α → List α
  | _, [] => []
  | 0, _ => []
  | fuel + 1, x :: xs => x :: firstOccsF fuel (xs.filter fun y => decide (y ≠ x))

def firstOccs {α : Type} [DecidableEq α] (l : List α) : List α :=
  firstOccsF l.length l

/-- `pandas.Series.value_counts()`: occurrence counts of the distinct values,
sorted by count descending (stable, so ties keep first-occurrence order). -/
def value_counts (l : List (List Char)) : List (List Char × Nat) :=
  List.insertionSort (fun a b => b.2 ≤ a.2) ((firstOccs l).map fun x => (x, l.count x))

example : value_counts ["b".data, "a".data, "b".data] =
    [("b".data, 2), ("a".data, 1)] := by decide

/-! ## Dataframe model and aggregation -/

/-- One dataframe cell: null (NaN), a string, or an integer. -/
inductive Cell where
  | null
  | str (s : List Char)
  | int (n : Int)
deriving DecidableEq

/-- A dataframe: a column schema and rows, each row giving a cell per column
name. -/
structure DFrame where
  cols : List String
  rows : List (String → Cell)

/-- `OPTION_ORDERS` (lines 190-197 of the source). -/
def OPTION_ORDERS (key : String) : Option (List (List Char)) :=
  if key = "手続類型" then
    some (["申請・届出", "審査・決定", "報告・通知", "納付", "交付等", "相談",
      "照会・閲覧", "記帳・記載・書類作成", "その他", "交付等（民間手続）"].map String.data)
  else if key = "オンライン化の実施状況" then
    some (["実施済", "一部実施済", "未実施", "適用除外", "その他"].map String.data)
  else if key = "手続主体" then
    some (["国", "独立行政法人等", "地方等", "国又は独立行政法人等",
      "独立行政法人等又は地方等", "国又は地方等", "国、独立行政法人等又は地方等",
      "国民等", "民間事業者等", "国民等、民間事業者等"].map String.data)
  else if key = "手続の受け手" then
    some (["国", "独立行政法人等", "地方等", "国又は独立行政法人等",
      "独立行政法人等又は地方等", "国又は地方等", "国、独立行政法人等又は地方等",
      "国民等", "民間事業者等", "国民等、民間事業者等"].map String.data)
  else if key = "事務区分" then
    some (["自治事務", "第1号法定受託事務", "第2号法定受託事務",
      "地方の事務でない"].map String.data)
  else if key = "府省共通手続" then
    some (["○（全府省）", "●（一部の府省）", "×（府省共通手続でない)"].map String.data)
  else none

/-- `dropna` plus Python `str()` coercion for a cell entering
`_normalize_label`. -/
def cellToOptStr (c : Cell) : Option (List Char) :=
  match c with
  | .null => Option.none
  | .str s => some s
  | .int n => some (toString n).data

/-- The normalized series built inside `normalized_counts`:
`df[column].dropna().map(lambda v: _normalize_label(key, v))`. -/
def normalizedSeries (df : DFrame) (column key : String) : List (List Char) :=
  ((df.rows.map fun r => r column).filterMap cellToOptStr).map (normalize_label key)

/-- `vc.reindex([v for v in order if v in vc.index]).dropna()`: the order
entries that occur among the counted labels, each with its count. -/
def reindexOrder (vc : List (List Char × Nat)) (order : List (List Char)) :
    List (List Char × Nat) :=
  order.filterMap fun v => (vc.find? fun p => decide (p.1 = v)).map fun p => (v, p.2)

/-- The ordering step of `normalized_counts`: apply the canonical order of
`OPTION_ORDERS` when one exists and the key is not `手続類型`, falling back
to the raw counts when the reindexed table is empty. -/
def applyOrder (key : String) (vc : List (List Char × Nat)) :
    List (List Char × Nat) :=
  match OPTION_ORDERS key with
  | some order =>
    if order ≠ [] ∧ key ≠ "手続類型" then
      if (reindexOrder vc order).length > 0 then reindexOrder vc order else vc
    else vc
  | Option.none => vc

/-- `normalized_counts(df, column, key)` from `streamlit_app.py`. -/
def normalized_counts (df : DFrame) (column key : String) : List (List Char × Nat) :=
  if column ∉ df.cols ∨ df.rows.length = 0 then []
  else applyOrder key (value_counts (normalizedSeries df column key))

/-- Cell as it enters `split_multi_value` after `dropna` (Python `str()`
coercion for non-string cells). -/
def cellToSplit (c : Cell) : PyVal :=
  match c with
  | .null => .nanFloat
  | .str s => .str s
  | .int n => .str (toString n).data

/-- The exploded token list built inside `multi_value_counts`. -/
def explodedValues (df : DFrame) (column : String) : List (List Char) :=
  ((df.rows.map fun r => r column).filterMap fun c =>
      if c = Cell.null then Option.none else some c).flatMap
    fun c => split_multi_value (cellToSplit c)

/-- `multi_value_counts(df, column, order)` from `streamlit_app.py`. -/
def multi_value_counts (df : DFrame) (column : String)
    (order : Option (List (List Char))) : List (List Char × Nat) :=
  if column ∉ df.cols ∨ df.rows.length = 0 then []
  else if explodedValues df column = [] then []
  else
    match order with
    | some ord =>
      if ord ≠ [] then
        if (reindexOrder (value_counts (explodedValues df column)) ord).length > 0
          then reindexOrder (value_counts (explodedValues df column)) ord
        else value_counts (explodedValues df column)
      else value_counts (explodedValues df column)
    | Option.none => value_counts (explodedValues df column)

/-! ## Filtering (`filter_dataframe`) -/

/-- `Series.isin(sel)` on one cell against a list of selected strings. -/
def isin (c : Cell) (sel : List (List Char)) : Bool :=
  match c with
  | .str s => s ∈ sel
  | _ => false

/-- Numeric view of a cell (`NaN` for null and non-numeric cells). -/
def toNum (c : Cell) : Option Int :=
  match c with
  | .int n => some n
  | _ => Option.none

/-- One named count-range bucket applied to a (possibly missing) count value:
the `elif` chain of lines 379-395 of the source. Comparisons against a
missing value are false; `0件もしくは不明` also matches missing. -/
def inCountRange (rs : String) (v : Option Int) : Bool :=
  if rs = "100万件以上" then
    match v with | some t => decide (1000000 ≤ t) | Option.none => false
  else if rs = "10万件以上100万件未満" then
    match v with | some t => decide (100000 ≤ t) && decide (t < 1000000) | Option.none => false
  else if rs = "1万件以上10万件未満" then
    match v with | some t => decide (10000 ≤ t) && decide (t < 100000) | Option.none => false
  else if rs = "1000件以上1万件未満" then
    match v with | some t => decide (1000 ≤ t) && decide (t < 10000) | Option.none => false
  else if rs = "100件以上1000件未満" then
    match v with | some t => decide (100 ≤ t) && decide (t < 1000) | Option.none => false
  else if rs = "10件以上100件未満" then
    match v with | some t => decide (10 ≤ t) && decide (t < 100) | Option.none => false
  else if rs = "1件以上10件未満" then
    match v with | some t => decide (1 ≤ t) && decide (t < 10) | Option.none => false
  else if rs = "0件もしくは不明" then
    match v with | some t => decide (t = 0) | Option.none => true
  else false

/-- The eight named buckets offered in the sidebar (lines 1277-1286). -/
def countRangeNames : List String :=
  ["100万件以上", "10万件以上100万件未満", "1万件以上10万件未満",
   "1000件以上1万件未満", "100件以上1000件未満", "10件以上100件未満",
   "1件以上10件未満", "0件もしくは不明"]

/-- The boolean mask of `filter_dataframe` evaluated on one row: each
non-empty selection list contributes a conjunct (`mask &= col.isin(sel)`);
the count ranges contribute a disjunction of bucket tests. Note that both
`recipients` and `receivers` test the `手続の受け手` column, as in the
source. -/
def rowMask (ms ss ts rc ac rv ot ic : List (List Char)) (cr : List String)
    (r : String → Cell) : Bool :=
  (ms.isEmpty || isin (r "所管府省庁") ms) &&
  (ss.isEmpty || isin (r "オンライン化の実施状況") ss) &&
  (ts.isEmpty || isin (r "手続類型") ts) &&
  (rc.isEmpty || isin (r "手続の受け手") rc) &&
  (ac.isEmpty || isin (r "手続主体") ac) &&
  (rv.isEmpty || isin (r "手続の受け手") rv) &&
  (ot.isEmpty || isin (r "事務区分") ot) &&
  (ic.isEmpty || isin (r "府省共通手続") ic) &&
  (cr.isEmpty || cr.any fun rs => inCountRange rs (toNum (r "総手続件数")))

/-- The columns `filter_dataframe` accesses, given which selections are
non-empty; accessing a column absent from the schema raises `KeyError` in
pandas. -/
def neededCols (ms ss ts rc ac rv ot ic : List (List Char)) (cr : List String) :
    List String :=
  (if ms.isEmpty then [] else ["所管府省庁"]) ++
  (if ss.isEmpty then [] else ["オンライン化の実施状況"]) ++
  (if ts.isEmpty then [] else ["手続類型"]) ++
  (if rc.isEmpty then [] else ["手続の受け手"]) ++
  (if ac.isEmpty then [] else ["手続主体"]) ++
  (if rv.isEmpty then [] else ["手続の受け手"]) ++
  (if ot.isEmpty then [] else ["事務区分"]) ++
  (if ic.isEmpty then [] else ["府省共通手続"]) ++
  (if cr.isEmpty then [] else ["総手続件数"])

/-- `filter_dataframe(df, ministries, statuses, types, recipients, actors,
receivers, office_types, is_common, count_ranges)` from `streamlit_app.py`:
builds a conjunctive boolean mask and returns `df[mask]`; raises (modelled
as `Except.error` carrying the column name) if an accessed column is absent
from the schema. -/
def filter_dataframe (df : DFrame) (ms ss ts rc ac rv ot ic : List (List Char))
    (cr : List String) : Except String DFrame :=
  match (neededCols ms ss ts rc ac rv ot ic cr).find? fun c => decide (c ∉ df.cols) with
  | some c => .error c
  | Option.none => .ok ⟨df.cols, df.rows.filter (rowMask ms ss ts rc ac rv ot ic cr)⟩

/-! ## Top-N + Other -/

/-- Modelled from the spec: `topn_with_other(series, top, other_label)` is
described in the spec's Frequency Aggregator section but no implementation
exists under `src/`. Following the spec's words: compute the unordered
frequency table, keep the `top` highest-count labels verbatim, and replace
everything beyond that rank by one synthetic bucket `other_label` whose
count is the sum of the excluded counts; if the number of distinct labels is
at most `top`, return the full table unchanged. -/
def topn_with_other (series : List (List Char)) (top : Nat) (otherLabel : List Char) :
    List (List Char × Nat) :=
  let counts := value_counts series
  if counts.length ≤ top then counts
  else counts.take top ++ [(otherLabel, (((counts.drop top).map Prod.snd).sum))]

example :
    topn_with_other ["a".data, "a".data, "b".data, "c".data] 1 "Other".data =
      [("a".data, 2), ("Other".data, 2)] := by decide

/-! ## Lemmas about `dropWhile` and `strip` -/

theorem dropWhile_idem {α : Type} (p : α → Bool) (l : List α) :
    (l.dropWhile p).dropWhile p = l.dropWhile p := by
  induction l with
  | nil => rfl
  | cons x xs ih =>
    by_cases h : p x
    · simp [List.dropWhile_cons, h, ih]
    · simp [List.dropWhile_cons, h]

theorem isPrefix_dropWhile_eq {α : Type} {p : α → Bool} {m m' : List α}
    (hpre : m' <+: m) (hm : m.dropWhile p = m) : m'.dropWhile p = m' := by
  cases m' with
  | nil => rfl
  | cons a t =>
    obtain ⟨s, hs⟩ := hpre
    subst hs
    have hpa : p a = false := by
      by_contra hpa'
      have hpa : p a = true := by simpa using hpa'
      rw [List.cons_append, List.dropWhile_cons, if_pos hpa] at hm
      have hlen := (List.dropWhile_sublist (l := t ++ s) p).length_le
      rw [hm] at hlen
      simp at hlen
    simp [List.dropWhile_cons, hpa]

theorem reverse_isPrefix_of_isSuffix {α : Type} {l1 l2 : List α} (h : l1 <:+ l2) :
    l1.reverse <+: l2.reverse := by
  obtain ⟨t, rfl⟩ := h
  exact ⟨t.reverse, by simp⟩

theorem rstrip_isPrefix (l : List Char) : rstrip l <+: l := by
  have h := reverse_isPrefix_of_isSuffix
    (List.dropWhile_suffix (l := l.reverse) isSpace)
  rw [List.reverse_reverse] at h
  exact h

theorem rstrip_length_le (l : List Char) : (rstrip l).length ≤ l.length :=
  (rstrip_isPrefix l).sublist.length_le

theorem strip_dropWhile (l : List Char) : (strip l).dropWhile isSpace = strip l :=
  isPrefix_dropWhile_eq (rstrip_isPrefix _) (dropWhile_idem _ _)

theorem rstrip_rstrip (l : List Char) : rstrip (rstrip l) = rstrip l := by
  unfold rstrip
  rw [List.reverse_reverse, dropWhile_idem]

theorem strip_strip (l : List Char) : strip (strip l) = strip l := by
  calc strip (strip l) = rstrip ((strip l).dropWhile isSpace) := rfl
  _ = rstrip (strip l) := by rw [strip_dropWhile]
  _ = rstrip (rstrip (l.dropWhile isSpace)) := rfl
  _ = rstrip (l.dropWhile isSpace) := rstrip_rstrip _
  _ = strip l := rfl

theorem dropWhile_eq_self_of_strip_eq {l : List Char} (h : strip l = l) :
    l.dropWhile isSpace = l := by
  have hsub := List.dropWhile_sublist (l := l) isSpace
  apply hsub.eq_of_length
  have h1 : (strip l).length ≤ (l.dropWhile isSpace).length := rstrip_length_le _
  rw [h] at h1
  have h2 := hsub.length_le
  omega

theorem rstrip_eq_self_of_strip_eq {l : List Char} (h : strip l = l) :
    rstrip l = l := by
  have hd := dropWhile_eq_self_of_strip_eq h
  calc rstrip l = rstrip (l.dropWhile isSpace) := by rw [hd]
  _ = strip l := rfl
  _ = l := h

theorem reverse_dropWhile_of_strip_eq {l : List Char} (h : strip l = l) :
    l.reverse.dropWhile isSpace = l.reverse := by
  have hr := congrArg List.reverse (rstrip_eq_self_of_strip_eq h)
  rw [rstrip, List.reverse_reverse] at hr
  exact hr

/-- A suffix of a stripped string, after dropping its own leading whitespace,
is stripped. -/
theorem strip_dropWhile_suffix {s rest2 : List Char} (hsuf : rest2 <:+ s)
    (hs : strip s = s) :
    strip (rest2.dropWhile isSpace) = rest2.dropWhile isSpace := by
  have h1 : (rest2.dropWhile isSpace).dropWhile isSpace = rest2.dropWhile isSpace :=
    dropWhile_idem _ _
  have hsuf2 : rest2.dropWhile isSpace <:+ s :=
    (List.dropWhile_suffix _).trans hsuf
  have hrev := reverse_isPrefix_of_isSuffix hsuf2
  have h2 := isPrefix_dropWhile_eq hrev (reverse_dropWhile_of_strip_eq hs)
  have h3 : rstrip (rest2.dropWhile isSpace) = rest2.dropWhile isSpace := by
    rw [rstrip, h2, List.reverse_reverse]
  calc strip (rest2.dropWhile isSpace)
      = rstrip ((rest2.dropWhile isSpace).dropWhile isSpace) := rfl
  _ = rstrip (rest2.dropWhile isSpace) := by rw [h1]
  _ = rest2.dropWhile isSpace := h3

/-! ## Lemmas about `codeStrip`, `mapParen`, `replaceAll` -/

theorem codeStripTail_suffix (rest : List Char) : codeStripTail rest <:+ rest := by
  unfold codeStripTail
  by_cases h : rest.head? = some '-' ∧ rest.tail.takeWhile isDigitJ ≠ []
  · rw [if_pos h]
    cases rest with
    | nil => simp at h
    | cons c r =>
      exact (List.dropWhile_suffix _).trans
        ((List.dropWhile_suffix _).trans (List.suffix_cons _ _))
  · rw [if_neg h]
    exact List.dropWhile_suffix _

theorem codeStrip_sublist (l : List Char) : (codeStrip l).Sublist l := by
  unfold codeStrip
  by_cases h : (l.dropWhile isSpace).takeWhile isDigitJ = []
  · rw [if_pos h]
  · rw [if_neg h]
    exact ((codeStripTail_suffix _).sublist.trans
      ((List.dropWhile_sublist _).trans (List.dropWhile_sublist _)))

theorem strip_codeStrip {s : List Char} (hs : strip s = s) :
    strip (codeStrip s) = codeStrip s := by
  unfold codeStrip
  by_cases h : (s.dropWhile isSpace).takeWhile isDigitJ = []
  · rw [if_pos h]; exact hs
  · rw [if_neg h]
    unfold codeStripTail
    by_cases h2 : ((s.dropWhile isSpace).dropWhile isDigitJ).head? = some '-' ∧
        ((s.dropWhile isSpace).dropWhile isDigitJ).tail.takeWhile isDigitJ ≠ []
    · rw [if_pos h2]
      apply strip_dropWhile_suffix ?_ hs
      cases hrest : (s.dropWhile isSpace).dropWhile isDigitJ with
      | nil => simp [hrest] at h2
      | cons c r =>
        have hsuf : (c :: r) <:+ s := by
          rw [← hrest]
          exact (List.dropWhile_suffix _).trans (List.dropWhile_suffix _)
        simp only [List.tail_cons]
        exact (List.dropWhile_suffix _).trans ((List.suffix_cons _ _).trans hsuf)
    · rw [if_neg h2]
      exact strip_dropWhile_suffix
        ((List.dropWhile_suffix _).trans (List.dropWhile_suffix _)) hs

/-- First character of a string, tested for being a digit. -/
def headIsDigit : List Char → Bool
  | [] => false
  | c :: _ => isDigitJ c

theorem codeStrip_eq_self {s : List Char} (hds : s.dropWhile isSpace = s)
    (hd : headIsDigit s = false) : codeStrip s = s := by
  unfold codeStrip
  rw [hds]
  cases s with
  | nil => simp
  | cons c cs =>
    have hc : isDigitJ c = false := hd
    rw [List.takeWhile_cons, hc]
    simp

theorem parenMap_ne_paren (c : Char) : parenMap c ≠ '(' ∧ parenMap c ≠ ')' := by
  unfold parenMap
  split_ifs with h1 h2
  · exact ⟨by decide, by decide⟩
  · exact ⟨by decide, by decide⟩
  · exact ⟨h1, h2⟩

theorem not_mem_mapParen (l : List Char) :
    '(' ∉ mapParen l ∧ ')' ∉ mapParen l := by
  constructor
  · intro h
    obtain ⟨a, -, ha⟩ := List.mem_map.mp h
    exact (parenMap_ne_paren a).1 ha
  · intro h
    obtain ⟨a, -, ha⟩ := List.mem_map.mp h
    exact (parenMap_ne_paren a).2 ha

theorem mapParen_eq_self {l : List Char} (h1 : '(' ∉ l) (h2 : ')' ∉ l) :
    mapParen l = l := by
  induction l with
  | nil => rfl
  | cons c cs ih =>
    simp only [List.mem_cons, not_or] at h1 h2
    have hc : parenMap c = c := by
      unfold parenMap
      rw [if_neg (fun h => h1.1 h.symm), if_neg (fun h => h2.1 h.symm)]
    simp only [mapParen, List.map_cons] at *
    rw [hc, ih h1.2 h2.2]

theorem isSpace_parenMap (c : Char) : isSpace (parenMap c) = isSpace c := by
  unfold parenMap
  split_ifs with h1 h2
  · subst h1; decide
  · subst h2; decide
  · rfl

theorem dropWhile_mapParen (l : List Char) :
    (mapParen l).dropWhile isSpace = mapParen (l.dropWhile isSpace) := by
  induction l with
  | nil => rfl
  | cons c cs ih =>
    simp only [mapParen, List.map_cons, List.dropWhile_cons, isSpace_parenMap]
    by_cases h : isSpace c
    · simp only [h, if_true]
      exact ih
    · simp [h]

theorem reverse_mapParen (l : List Char) :
    (mapParen l).reverse = mapParen l.reverse := by
  simp [mapParen, List.map_reverse]

theorem rstrip_mapParen (l : List Char) :
    rstrip (mapParen l) = mapParen (rstrip l) := by
  unfold rstrip
  rw [reverse_mapParen, dropWhile_mapParen, ← reverse_mapParen]

theorem strip_mapParen (l : List Char) :
    strip (mapParen l) = mapParen (strip l) := by
  unfold strip
  rw [dropWhile_mapParen, rstrip_mapParen]

theorem replaceAllF_eq_of_not_mem {x : Char} {pat rep : List Char} (hx : x ∈ pat) :
    ∀ (fuel : Nat) (l : List Char), x ∉ l → replaceAllF pat rep fuel l = l := by
  intro fuel
  induction fuel with
  | zero =>
    intro l _
    cases l <;> rfl
  | succ n ih =>
    intro l hl
    cases l with
    | nil => rfl
    | cons c cs =>
      have hcond : ¬ (pat ≠ [] ∧ pat.isPrefixOf (c :: cs)) := by
        rintro ⟨-, hpre⟩
        exact hl ((List.isPrefixOf_iff_prefix.mp hpre).subset hx)
      simp only [List.mem_cons, not_or] at hl
      rw [replaceAllF, if_neg hcond, ih cs hl.2]

theorem replaceAll_eq_of_not_mem {x : Char} {pat rep l : List Char}
    (hx : x ∈ pat) (hl : x ∉ l) : replaceAll pat rep l = l :=
  replaceAllF_eq_of_not_mem hx _ l hl

/-! ## Normalization structure lemmas -/

theorem postProcess_no_paren (key : String) (s : List Char) :
    '(' ∉ postProcess key s ∧ ')' ∉ postProcess key s := by
  have base := not_mem_mapParen s
  have inner : '(' ∉ (if key = "オンライン化の実施状況" ∨ key = "手続類型" then
        codeStrip (mapParen s) else mapParen s) ∧
      ')' ∉ (if key = "オンライン化の実施状況" ∨ key = "手続類型" then
        codeStrip (mapParen s) else mapParen s) := by
    by_cases hk : key = "オンライン化の実施状況" ∨ key = "手続類型"
    · rw [if_pos hk]
      exact ⟨fun hmem => base.1 ((codeStrip_sublist _).subset hmem),
        fun hmem => base.2 ((codeStrip_sublist _).subset hmem)⟩
    · rw [if_neg hk]
      exact base
  unfold postProcess
  by_cases hk2 : key = "手続類型"
  · rw [if_pos hk2, replaceAll_eq_of_not_mem (x := '(') (by decide) inner.1]
    exact inner
  · rw [if_neg hk2]
    exact inner

theorem strip_postProcess {key : String} {s : List Char} (hs : strip s = s) :
    strip (postProcess key s) = postProcess key s := by
  have h1 : strip (mapParen s) = mapParen s := by rw [strip_mapParen, hs]
  have inner : strip (if key = "オンライン化の実施状況" ∨ key = "手続類型" then
        codeStrip (mapParen s) else mapParen s) =
      (if key = "オンライン化の実施状況" ∨ key = "手続類型" then
        codeStrip (mapParen s) else mapParen s) := by
    by_cases hk : key = "オンライン化の実施状況" ∨ key = "手続類型"
    · rw [if_pos hk]
      exact strip_codeStrip h1
    · rw [if_neg hk]
      exact h1
  have hnp : '(' ∉ (if key = "オンライン化の実施状況" ∨ key = "手続類型" then
      codeStrip (mapParen s) else mapParen s) := by
    by_cases hk : key = "オンライン化の実施状況" ∨ key = "手続類型"
    · rw [if_pos hk]
      exact fun hmem => (not_mem_mapParen s).1 ((codeStrip_sublist _).subset hmem)
    · rw [if_neg hk]
      exact (not_mem_mapParen s).1
  unfold postProcess
  by_cases hk2 : key = "手続類型"
  · rw [if_pos hk2, replaceAll_eq_of_not_mem (x := '(') (by decide) hnp]
    exact inner
  · rw [if_neg hk2]
    exact inner

theorem strip_normalize_label (key : String) (v : List Char) :
    strip (normalize_label key v) = normalize_label key v := by
  unfold normalize_label
  by_cases hg : lower (strip v) = ['n', 'a', 'n'] ∨ strip v = []
  · rw [if_pos hg]
    exact strip_strip v
  · rw [if_neg hg]
    exact strip_postProcess (strip_strip v)

/-! ## C1: idempotence of label normalization -/

/-- C1 (amended): `_normalize_label` is idempotent for every key without
leading-code stripping; for the two code-stripping keys
(`オンライン化の実施状況`, `手続類型`) it is idempotent whenever the
once-normalized value does not itself begin with a digit. -/
theorem C1_normalize_label_idempotent_amended (key : String) (v : List Char)
    (h : (key ≠ "オンライン化の実施状況" ∧ key ≠ "手続類型") ∨
      headIsDigit (normalize_label key v) = false) :
    normalize_label key (normalize_label key v) = normalize_label key v := by
  have hstrip_r : strip (normalize_label key v) = normalize_label key v :=
    strip_normalize_label key v
  conv_lhs => rw [normalize_label]
  rw [hstrip_r]
  by_cases hg : lower (normalize_label key v) = ['n', 'a', 'n'] ∨
      normalize_label key v = []
  · rw [if_pos hg]
  · rw [if_neg hg]
    have hr' : normalize_label key v = postProcess key (strip v) := by
      unfold normalize_label
      by_cases hg1 : lower (strip v) = ['n', 'a', 'n'] ∨ strip v = []
      · rw [if_pos hg1]
        exact absurd (by rw [normalize_label, if_pos hg1]; exact hg1) hg
      · rw [if_neg hg1]
    have hnp : '(' ∉ normalize_label key v ∧ ')' ∉ normalize_label key v := by
      rw [hr']
      exact postProcess_no_paren key (strip v)
    have h1 : mapParen (normalize_label key v) = normalize_label key v :=
      mapParen_eq_self hnp.1 hnp.2
    unfold postProcess
    rw [h1]
    have inner : (if key = "オンライン化の実施状況" ∨ key = "手続類型" then
        codeStrip (normalize_label key v) else normalize_label key v) =
        normalize_label key v := by
      by_cases hk : key = "オンライン化の実施状況" ∨ key = "手続類型"
      · rw [if_pos hk]
        have hd : headIsDigit (normalize_label key v) = false := by
          rcases h with ⟨ha, hb⟩ | hd

          · rcases hk with hk | hk
            · exact absurd hk ha
            · exact absurd hk hb
          · exact hd
        exact codeStrip_eq_self (dropWhile_eq_self_of_strip_eq hstrip_r) hd
      · rw [if_neg hk]
    rw [inner]
    by_cases hk2 : key = "手続類型"
    · rw [if_pos hk2,
        replaceAll_eq_of_not_mem (x := '(') (by decide : '(' ∈ kofuPat) hnp.1]
    · rw [if_neg hk2]

/-- C1 (counterexample): for key `手続類型` and raw value `"1 2X"`,
normalizing twice differs from normalizing once (the leading-code strip can
fire again on the once-normalized value). -/
theorem C1_counterexample :
    normalize_label "手続類型" (normalize_label "手続類型" "1 2X".data) ≠
      normalize_label "手続類型" "1 2X".data := by decide

/-- C1 (witness): the amended theorem applied at the concrete key `法令名`
and raw value `" a(b) "`. -/
theorem C1_witness :
    normalize_label "法令名" (normalize_label "法令名" " a(b) ".data) =
      normalize_label "法令名" " a(b) ".data :=
  C1_normalize_label_idempotent_amended "法令名" " a(b) ".data
    (Or.inl (by decide))

/-! ## C2: the multi-value delimiter set -/

/-- C2 (counterexample): the full-width comma is not a separator of
`split_multi_value`; `"A，B"` stays one token, not `["A", "B"]`. -/
theorem C2_counterexample :
    split_multi_value (.str "A，B".data) ≠ ["A".data, "B".data] := by decide

/-- C2 (amended): the delimiter equivalence set of `split_multi_value` is
`{ideographic comma, ASCII comma, ASCII semicolon, newline, middle dot,
full-width slash, ASCII slash}`; the full-width comma and the full-width
semicolon are NOT separators; every null-like input (`None`, float NaN,
empty or whitespace-only string, the literal `"nan"`) yields the empty
sequence. -/
theorem C2_split_delimiters_amended :
    (∀ d ∈ ['、', ',', ';', '\n', '・', '／', '/'],
      split_multi_value (.str ['A', d, 'B']) = [['A'], ['B']]) ∧
    split_multi_value (.str "A，B".data) = ["A，B".data] ∧
    split_multi_value (.str "A；B".data) = ["A；B".data] ∧
    split_multi_value .none = [] ∧
    split_multi_value .nanFloat = [] ∧
    (∀ s : List Char, strip s = [] → split_multi_value (.str s) = []) ∧
    split_multi_value (.str "nan".data) = [] ∧
    split_multi_value (.str "NaN".data) = [] := by
  refine ⟨by decide, by decide, by decide, rfl, rfl, ?_, by decide, by decide⟩
  intro s hs
  exact if_pos (Or.inl hs)

/-- C2 (witness): the amended theorem applied at the ideographic comma and
at a whitespace-only string. -/
theorem C2_witness :
    split_multi_value (.str ['A', '、', 'B']) = [['A'], ['B']] ∧
    split_multi_value (.str "  ".data) = [] :=
  ⟨C2_split_delimiters_amended.1 '、' (by decide),
    C2_split_delimiters_amended.2.2.2.2.2.1 "  ".data (by decide)⟩

/-! ## C4: the filter engine is a pure order-preserving subset -/

theorem filter_idem {α : Type} (p : α → Bool) (l : List α) :
    (l.filter p).filter p = l.filter p :=
  List.filter_eq_self.mpr fun _ ha => (List.mem_filter.mp ha).2

/-- C4: filtering returns an order-preserving subset of the source rows
(source unchanged — the model is pure and the code selects `df[mask]`
without mutation), with length at most the source length; re-filtering with
the same predicate set is the identity on the result; and the empty
predicate set returns the table unchanged. -/
theorem C4_filter_pure_subset_idempotent :
    (∀ (df : DFrame) (ms ss ts rc ac rv ot ic : List (List Char))
      (cr : List String) (df2 : DFrame),
      filter_dataframe df ms ss ts rc ac rv ot ic cr = .ok df2 →
        df2.cols = df.cols ∧
        df2.rows.Sublist df.rows ∧
        df2.rows.length ≤ df.rows.length ∧
        filter_dataframe df2 ms ss ts rc ac rv ot ic cr = .ok df2) ∧
    (∀ df : DFrame, filter_dataframe df [] [] [] [] [] [] [] [] [] = .ok df) := by
  constructor
  · intro df ms ss ts rc ac rv ot ic cr df2 h
    unfold filter_dataframe at h
    cases hfind : (neededCols ms ss ts rc ac rv ot ic cr).find?
        fun c => decide (c ∉ df.cols) with
    | some c => rw [hfind] at h; exact absurd h (by simp)
    | none =>
      rw [hfind] at h
      have hdf2 : df2 = ⟨df.cols, df.rows.filter (rowMask ms ss ts rc ac rv ot ic cr)⟩ := by
        cases h; rfl
      subst hdf2
      refine ⟨rfl, List.filter_sublist _, (List.filter_sublist _).length_le, ?_⟩
      unfold filter_dataframe
      rw [hfind, filter_idem]
  · intro df
    unfold filter_dataframe
    have hneeded : neededCols [] [] [] [] [] [] [] [] [] = [] := rfl
    rw [hneeded]
    simp only [List.find?_nil]
    rw [show df.rows.filter (rowMask [] [] [] [] [] [] [] [] []) = df.rows from
      List.filter_eq_self.mpr fun a _ => by simp [rowMask]]

/-- Two-row sample table used by the C4 witness. -/
def sampleRow1 : String → Cell :=
  fun c => if c = "所管府省庁" then .str "総務省".data else .null

def sampleRow2 : String → Cell :=
  fun c => if c = "所管府省庁" then .str "法務省".data else .null

def sampleDF : DFrame := ⟨["所管府省庁"], [sampleRow1, sampleRow2]⟩

def sampleDFout : DFrame := ⟨["所管府省庁"], [sampleRow1]⟩

/-- C4 (witness): the theorem applied to a concrete two-row table with one
ministry selected, and to the empty predicate set. -/
theorem C4_witness :
    (sampleDFout.cols = sampleDF.cols ∧
      sampleDFout.rows.Sublist sampleDF.rows ∧
      sampleDFout.rows.length ≤ sampleDF.rows.length ∧
      filter_dataframe sampleDFout ["総務省".data] [] [] [] [] [] [] [] [] =
        .ok sampleDFout) ∧
    filter_dataframe sampleDF [] [] [] [] [] [] [] [] [] = .ok sampleDF :=
  ⟨C4_filter_pure_subset_idempotent.1 sampleDF ["総務省".data] [] [] [] [] [] [] []
      [] sampleDFout rfl,
    C4_filter_pure_subset_idempotent.2 sampleDF⟩

/-! ## C5: the numeric count buckets partition the values -/

/-- C5: the eight named count buckets partition the non-negative integers
together with the missing value: every such value satisfies exactly one
bucket predicate. -/
theorem C5_count_buckets_partition (v : Option Int) (h : 0 ≤ v.getD 0) :
    (countRangeNames.countP fun rs => inCountRange rs v) = 1 := by
  cases v with
  | none => decide
  | some t =>
    simp only [Option.getD_some] at h
    have e1 : inCountRange "100万件以上" (some t) = decide (1000000 ≤ t) := rfl
    have e2 : inCountRange "10万件以上100万件未満" (some t) =
      (decide (100000 ≤ t) && decide (t < 1000000)) := rfl
    have e3 : inCountRange "1万件以上10万件未満" (some t) =
      (decide (10000 ≤ t) && decide (t < 100000)) := rfl
    have e4 : inCountRange "1000件以上1万件未満" (some t) =
      (decide (1000 ≤ t) && decide (t < 10000)) := rfl
    have e5 : inCountRange "100件以上1000件未満" (some t) =
      (decide (100 ≤ t) && decide (t < 1000)) := rfl
    have e6 : inCountRange "10件以上100件未満" (some t) =
      (decide (10 ≤ t) && decide (t < 100)) := rfl
    have e7 : inCountRange "1件以上10件未満" (some t) =
      (decide (1 ≤ t) && decide (t < 10)) := rfl
    have e8 : inCountRange "0件もしくは不明" (some t) = decide (t = 0) := rfl
    simp only [countRangeNames, List.countP_cons, List.countP_nil,
      e1, e2, e3, e4, e5, e6, e7, e8]
    clear e1 e2 e3 e4 e5 e6 e7 e8
    split_ifs <;>
      (simp only [Bool.and_eq_true, decide_eq_true_eq] at * <;> omega)

/-- C5 (witness): the theorem applied at the boundary value 10, which lands
in the `[10, 100)` bucket and not in `[1, 10)`. -/
theorem C5_witness :
    (countRangeNames.countP fun rs => inCountRange rs (some 10)) = 1 ∧
    inCountRange "10件以上100件未満" (some 10) = true ∧
    inCountRange "1件以上10件未満" (some 10) = false :=
  ⟨C5_count_buckets_partition (some 10) (by decide), by decide, by decide⟩

/-! ## C7: behavior on a missing column -/

/-- C7 (counterexample): `filter_dataframe` does not treat a missing column
as "no data": with a non-empty ministry selection and a schema lacking
`所管府省庁`, it raises (pandas `KeyError`, modelled as `Except.error`)
instead of returning an empty result. -/
theorem C7_counterexample :
    filter_dataframe (DFrame.mk ["手続ID"] []) ["総務省".data]
      [] [] [] [] [] [] [] [] = .error "所管府省庁" := rfl

/-- C7 (amended): aggregation (`normalized_counts`, `multi_value_counts`)
treats a requested column absent from the schema as "no data" and returns
an empty frequency table; `filter_dataframe`, however, performs no such
check and fails with a `KeyError` as soon as a column with a non-empty
selection is absent. -/
theorem C7_missing_column_amended :
    (∀ (df : DFrame) (column key : String), column ∉ df.cols →
      normalized_counts df column key = []) ∧
    (∀ (df : DFrame) (column : String) (order : Option (List (List Char))),
      column ∉ df.cols → multi_value_counts df column order = []) ∧
    (∀ (df : DFrame) (ms : List (List Char)), ms ≠ [] → "所管府省庁" ∉ df.cols →
      filter_dataframe df ms [] [] [] [] [] [] [] [] = .error "所管府省庁") := by
  refine ⟨?_, ?_, ?_⟩
  · intro df column key h
    unfold normalized_counts
    rw [if_pos (Or.inl h)]
  · intro df column order h
    unfold multi_value_counts
    rw [if_pos (Or.inl h)]
  · intro df ms hms hcol
    have h1 : ms.isEmpty = false := by
      cases ms with
      | nil => exact absurd rfl hms
      | cons a l => rfl
    have hn : neededCols ms [] [] [] [] [] [] [] [] = ["所管府省庁"] := by
      unfold neededCols
      rw [h1]
      rfl
    unfold filter_dataframe
    rw [hn, List.find?_cons_of_pos (p := fun c => decide (c ∉ df.cols)) _
      (decide_eq_true hcol)]

/-! ## Counting lemmas for the frequency tables -/

theorem count_add_length_filter_ne (x : List Char) (xs : List (List Char)) :
    xs.count x + (xs.filter fun y => decide (y ≠ x)).length = xs.length := by
  induction xs with
  | nil => rfl
  | cons a l ih =>
    rw [List.count_cons, List.filter_cons]
    by_cases h : a = x
    · have hda : (decide (a ≠ x)) = false := by simp [h]
      have hbeq : (a == x) = true := by simpa using h
      rw [hda, hbeq, if_pos rfl, if_neg (by simp)]
      simp only [List.length_cons]
      omega
    · have hda : (decide (a ≠ x)) = true := by simp [h]
      have hbeq : (a == x) = false := by simpa using h
      rw [hda, hbeq, if_pos rfl, if_neg (by simp)]
      simp only [List.length_cons]
      omega

theorem firstOccsF_subset {α : Type} [DecidableEq α] :
    ∀ (fuel : Nat) (l : List α), firstOccsF fuel l ⊆ l := by
  intro fuel
  induction fuel with
  | zero =>
    intro l x hx
    cases l with
    | nil => simp [firstOccsF] at hx
    | cons a t => simp [firstOccsF] at hx
  | succ n ih =>
    intro l x hx
    cases l with
    | nil => simp [firstOccsF] at hx
    | cons a t =>
      rw [firstOccsF] at hx
      rcases List.mem_cons.mp hx with rfl | hx2
      · exact List.mem_cons_self _ _
      · exact List.mem_cons_of_mem _ (List.mem_of_mem_filter (ih _ hx2))

theorem firstOccsF_nodup {α : Type} [DecidableEq α] :
    ∀ (fuel : Nat) (l : List α), (firstOccsF fuel l).Nodup := by
  intro fuel
  induction fuel with
  | zero =>
    intro l
    cases l <;> simp [firstOccsF]
  | succ n ih =>
    intro l
    cases l with
    | nil => simp [firstOccsF]
    | cons a t =>
      rw [firstOccsF]
      refine List.nodup_cons.mpr ⟨?_, ih _⟩
      intro ha
      have := firstOccsF_subset n _ ha
      simp [List.mem_filter] at this

theorem sum_count_firstOccsF :
    ∀ (fuel : Nat) (l : List (List Char)), l.length ≤ fuel →
      ((firstOccsF fuel l).map fun x => l.count x).sum = l.length := by
  intro fuel
  induction fuel with
  | zero =>
    intro l hl
    have hnil : l = [] := List.length_eq_zero.mp (Nat.le_zero.mp hl)
    subst hnil
    rfl
  | succ n ih =>
    intro l hl
    cases l with
    | nil => rfl
    | cons a t =>
      rw [firstOccsF]
      simp only [List.map_cons, List.sum_cons]
      have hmap : ((firstOccsF n (t.filter fun y => decide (y ≠ a))).map
            fun x => (a :: t).count x) =
          ((firstOccsF n (t.filter fun y => decide (y ≠ a))).map
            fun x => (t.filter fun y => decide (y ≠ a)).count x) := by
        apply List.map_congr_left
        intro x hx
        have hxf : x ∈ t.filter fun y => decide (y ≠ a) := firstOccsF_subset n _ hx
        have hxa : x ≠ a := by
          have := (List.mem_filter.mp hxf).2
          simpa using this
        have hbeq : (a == x) = false := by simpa using fun h => hxa h.symm
        rw [List.count_cons, hbeq, if_neg (by simp),
          List.count_filter (by simpa using hxa)]
        omega
      have hlen : (t.filter fun y => decide (y ≠ a)).length ≤ n := by
        have := List.length_filter_le (fun y => decide (y ≠ a)) t
        simp only [List.length_cons] at hl
        omega
      rw [hmap, ih _ hlen, List.count_cons_self]
      have := count_add_length_filter_ne a t
      simp only [List.length_cons]
      omega

/-- The counts of a `value_counts` table sum to the length of the counted
series. -/
theorem sum_value_counts (l : List (List Char)) :
    ((value_counts l).map Prod.snd).sum = l.length := by
  unfold value_counts
  have hperm := (List.perm_insertionSort (fun a b : List Char × Nat => b.2 ≤ a.2)
    ((firstOccs l).map fun x => (x, l.count x))).map Prod.snd
  rw [hperm.sum_eq, List.map_map]
  have : (Prod.snd ∘ fun x => (x, l.count x)) = fun x => l.count x := rfl
  rw [this]
  exact sum_count_firstOccsF l.length l le_rfl

/-- The labels of a `value_counts` table are distinct. -/
theorem nodup_keys_value_counts (l : List (List Char)) :
    ((value_counts l).map Prod.fst).Nodup := by
  unfold value_counts
  have hperm := (List.perm_insertionSort (fun a b : List Char × Nat => b.2 ≤ a.2)
    ((firstOccs l).map fun x => (x, l.count x))).map Prod.fst
  rw [hperm.nodup_iff, List.map_map]
  have : (Prod.fst ∘ fun x => (x, l.count x)) = id := rfl
  rw [this, List.map_id]
  exact firstOccsF_nodup _ _

/-- Every label of a `value_counts` table occurs in the counted series. -/
theorem keys_value_counts_mem {l : List (List Char)} {p : List Char × Nat}
    (hp : p ∈ value_counts l) : p.1 ∈ l := by
  unfold value_counts at hp
  have hp2 := (List.perm_insertionSort (fun a b : List Char × Nat => b.2 ≤ a.2)
    ((firstOccs l).map fun x => (x, l.count x))).mem_iff.mp hp
  obtain ⟨x, hx, hxp⟩ := List.mem_map.mp hp2
  have : p.1 = x := by rw [← hxp]
  rw [this]
  exact firstOccsF_subset _ _ hx

theorem find?_filter_ne {v w : List Char} (hvw : w ≠ v)
    (vc : List (List Char × Nat)) :
    ((vc.filter fun q => decide (q.1 ≠ v)).find? fun p => decide (p.1 = w)) =
      vc.find? fun p => decide (p.1 = w) := by
  induction vc with
  | nil => rfl
  | cons q t ih =>
    by_cases hq : q.1 = v
    · have hdq : (decide (q.1 ≠ v)) = false := by simpa using hq
      have hdw : (decide (q.1 = w)) = false := by
        simp only [decide_eq_false_iff_not]
        rw [hq]
        exact fun h => hvw h.symm
      rw [List.filter_cons, hdq, if_neg (by simp), List.find?_cons, hdw]
      exact ih
    · have hdq : (decide (q.1 ≠ v)) = true := by simpa using hq
      by_cases hw : q.1 = w
      · have hdw : (decide (q.1 = w)) = true := by simpa using hw
        rw [List.filter_cons, hdq, if_pos rfl, List.find?_cons, hdw,
          List.find?_cons, hdw]
      · have hdw : (decide (q.1 = w)) = false := by simpa using hw
        rw [List.filter_cons, hdq, if_pos rfl, List.find?_cons, hdw,
          List.find?_cons, hdw]
        exact ih

/-- Removing the unique entry with key `v` from a table with distinct keys
removes exactly its count from the total. -/
theorem sum_removeKey {v : List Char} {p : List Char × Nat} :
    ∀ vc : List (List Char × Nat), (vc.map Prod.fst).Nodup → p ∈ vc → p.1 = v →
      (vc.map Prod.snd).sum =
        p.2 + ((vc.filter fun q => decide (q.1 ≠ v)).map Prod.snd).sum := by
  intro vc
  induction vc with
  | nil =>
    intro _ hp _
    exact absurd hp (List.not_mem_nil p)
  | cons q t ih =>
    intro hnd hp hpv
    have hnd2 : q.1 ∉ t.map Prod.fst ∧ (t.map Prod.fst).Nodup := by
      rw [List.map_cons] at hnd
      exact List.nodup_cons.mp hnd
    rcases List.mem_cons.mp hp with rfl | hp2
    · have hkeys : ∀ r ∈ t, r.1 ≠ v := by
        intro r hr hrv
        exact hnd2.1 (hpv ▸ hrv ▸ List.mem_map.mpr ⟨r, hr, rfl⟩)
      have hfilter : (t.filter fun q => decide (q.1 ≠ v)) = t :=
        List.filter_eq_self.mpr fun r hr => by simpa using hkeys r hr
      have hdp : (decide (p.1 ≠ v)) = false := by simp [hpv]
      rw [List.filter_cons, hdp, if_neg (by simp), hfilter, List.map_cons,
        List.sum_cons]
    · have hq : q.1 ≠ v := by
        intro hqv
        exact hnd2.1 (hqv ▸ hpv ▸ List.mem_map.mpr ⟨p, hp2, rfl⟩)
      have ihh := ih hnd2.2 hp2 hpv
      have hdq : (decide (q.1 ≠ v)) = true := by simpa using hq
      rw [List.filter_cons, hdq, if_pos rfl, List.map_cons, List.sum_cons,
        List.map_cons, List.sum_cons]
      omega

/-- Reindexing a frequency table by an order list conserves the total count,
provided the order has no duplicates and covers every key of the table. -/
theorem sum_reindexOrder :
    ∀ (order : List (List Char)) (vc : List (List Char × Nat)), order.Nodup →
      (vc.map Prod.fst).Nodup → (∀ p ∈ vc, p.1 ∈ order) →
      ((reindexOrder vc order).map Prod.snd).sum = (vc.map Prod.snd).sum := by
  intro order
  induction order with
  | nil =>
    intro vc _ _ hsub
    cases vc with
    | nil => rfl
    | cons p t => exact absurd (hsub p (List.mem_cons_self _ _)) (List.not_mem_nil _)
  | cons v rest ih =>
    intro vc hord hnd hsub
    have hvrest : v ∉ rest := (List.nodup_cons.mp hord).1
    have hordrest : rest.Nodup := (List.nodup_cons.mp hord).2
    unfold reindexOrder
    rw [List.filterMap_cons]
    cases hfind : vc.find? fun p => decide (p.1 = v) with
    | none =>
      have hsub2 : ∀ p ∈ vc, p.1 ∈ rest := by
        intro p hp
        rcases List.mem_cons.mp (hsub p hp) with h | h
        · have := List.find?_eq_none.mp hfind p hp
          simp [h] at this
        · exact h
      exact ih vc hordrest hnd hsub2
    | some p =>
      have hp_mem : p ∈ vc := List.mem_of_find?_eq_some hfind
      have hp_key : p.1 = v := by simpa using List.find?_some hfind
      simp only [Option.map_some', List.map_cons, List.sum_cons]
      have hswap : (rest.filterMap fun w =>
            (vc.find? fun p => decide (p.1 = w)).map fun p => (w, p.2)) =
          (rest.filterMap fun w =>
            ((vc.filter fun q => decide (q.1 ≠ v)).find?
              fun p => decide (p.1 = w)).map fun p => (w, p.2)) := by
        apply List.filterMap_congr
        intro w hw
        rw [find?_filter_ne (fun h => hvrest (by rw [← h]; exact hw)) vc]
      have hnd2 : ((vc.filter fun q => decide (q.1 ≠ v)).map Prod.fst).Nodup :=
        ((List.filter_sublist vc).map Prod.fst).nodup hnd
      have hsub2 : ∀ q ∈ vc.filter fun q => decide (q.1 ≠ v), q.1 ∈ rest := by
        intro q hq
        have hqv : q.1 ≠ v := by
          have := (List.mem_filter.mp hq).2
          simpa using this
        rcases List.mem_cons.mp (hsub q (List.mem_of_mem_filter hq)) with h | h
        · exact absurd h hqv
        · exact h
      have hsum := sum_removeKey vc hnd hp_mem hp_key
      rw [hswap]
      have hih := ih (vc.filter fun q => decide (q.1 ≠ v)) hordrest hnd2 hsub2
      unfold reindexOrder at hih
      rw [hih]
      omega

/-- C7 (witness): the amended theorem applied at a concrete schema lacking
the requested columns. -/
theorem C7_witness :
    normalized_counts (DFrame.mk ["手続ID"] []) "所管府省庁" "所管府省庁" = [] ∧
    multi_value_counts (DFrame.mk ["手続ID"] []) "申請に関連する士業" Option.none = [] ∧
    filter_dataframe (DFrame.mk ["手続ID"] []) ["総務省".data]
      [] [] [] [] [] [] [] [] = .error "所管府省庁" :=
  ⟨C7_missing_column_amended.1 _ _ _ (by decide),
    C7_missing_column_amended.2.1 _ _ Option.none (by decide),
    C7_missing_column_amended.2.2 _ _ (by decide) (by decide)⟩

/-! ## C3: conservation of aggregated counts -/

/-- Every list stored in `OPTION_ORDERS` is duplicate-free. -/
theorem OPTION_ORDERS_nodup {key : String} {order : List (List Char)}
    (h : OPTION_ORDERS key = some order) : order.Nodup := by
  unfold OPTION_ORDERS at h
  split_ifs at h <;> cases h <;> decide

/-- C3 (amended): counts conserve the total number of non-null observations
whenever no canonical order is applied (no entry in `OPTION_ORDERS`, or key
`手続類型`, for which the order is skipped), and also when an order is
applied but every normalized value occurs in it. (When an order is applied
and some data label is absent from it, that label's observations are
dropped, so the sum can be smaller — see the counterexample.) For
multi-value aggregation without an order, the counts sum to the number of
exploded tokens. -/
theorem C3_aggregation_conservation_amended :
    (∀ (df : DFrame) (column key : String), column ∈ df.cols →
      ((OPTION_ORDERS key = Option.none ∨ key = "手続類型") ∨
        (∀ s ∈ normalizedSeries df column key, s ∈ (OPTION_ORDERS key).getD []) ∨
        reindexOrder (value_counts (normalizedSeries df column key))
          ((OPTION_ORDERS key).getD []) = []) →
      ((normalized_counts df column key).map Prod.snd).sum =
        (normalizedSeries df column key).length) ∧
    (∀ (df : DFrame) (column : String), column ∈ df.cols →
      ((multi_value_counts df column Option.none).map Prod.snd).sum =
        (explodedValues df column).length) := by
  constructor
  · intro df column key hcol hcond
    unfold normalized_counts applyOrder
    by_cases hrows : df.rows.length = 0
    · rw [if_pos (Or.inr hrows)]
      have hnil : df.rows = [] := List.length_eq_zero.mp hrows
      simp [normalizedSeries, hnil]
    · rw [if_neg (by simp [hcol, hrows])]
      split
      · rename_i order hoo
        split_ifs with hcond2 hord
        · rcases hcond with (hnone | hkey) | hall | hfall
          · rw [hoo] at hnone
            exact absurd hnone (by simp)
          · exact absurd hkey hcond2.2
          · rw [hoo] at hall
            simp only [Option.getD_some] at hall
            rw [sum_reindexOrder order _ (OPTION_ORDERS_nodup hoo)
              (nodup_keys_value_counts _)
              fun p hp => hall p.1 (keys_value_counts_mem hp)]
            exact sum_value_counts _
          · rw [hoo] at hfall
            simp only [Option.getD_some] at hfall
            rw [hfall] at hord
            exact absurd hord (by simp)
        · exact sum_value_counts _
        · exact sum_value_counts _
      · exact sum_value_counts _
  · intro df column hcol
    unfold multi_value_counts
    by_cases hrows : df.rows.length = 0
    · rw [if_pos (Or.inr hrows)]
      have hnil : df.rows = [] := List.length_eq_zero.mp hrows
      simp [explodedValues, hnil]
    · rw [if_neg (by simp [hcol, hrows])]
      by_cases hval : explodedValues df column = []
      · rw [if_pos hval, hval]
        rfl
      · rw [if_neg hval]
        exact sum_value_counts _

/-- Rows of the C3 counterexample table: a scalar status column with no
nulls, one value canonical and one value outside the canonical order. -/
def c3row1 : String → Cell := fun _ => Cell.str "実施済".data

def c3row2 : String → Cell := fun _ => Cell.str "未知の値".data

def c3df : DFrame := ⟨["オンライン化の実施状況"], [c3row1, c3row2]⟩

/-- C3 (counterexample): a two-row table with a scalar, null-free status
column aggregates to a total count of 1, not 2, when the canonical order is
applied: the label absent from `OPTION_ORDERS` is silently dropped by the
reindex. -/
theorem C3_counterexample :
    c3df.rows.length = 2 ∧
    (∀ r ∈ c3df.rows, r "オンライン化の実施状況" ≠ Cell.null) ∧
    ((normalized_counts c3df "オンライン化の実施状況"
      "オンライン化の実施状況").map Prod.snd).sum = 1 := by
  refine ⟨rfl, ?_, by decide⟩
  intro r hr
  rcases List.mem_cons.mp hr with rfl | hr2
  · decide
  · rcases List.mem_cons.mp hr2 with rfl | hr3
    · decide
    · exact absurd hr3 (List.not_mem_nil r)

/-- One-row sample table for the C3 witness. -/
def c3wrow : String → Cell := fun _ => Cell.str "民法".data

def c3wdf : DFrame := ⟨["法令名"], [c3wrow]⟩

/-- One-row table whose only label lies outside the canonical order of
`オンライン化の実施状況`: the reindex is empty and the code falls back to
the raw counts. -/
def c3fdf : DFrame := ⟨["オンライン化の実施状況"], [c3row2]⟩

/-- C3 (witness): the amended theorem applied at a concrete one-row table
with a key with no canonical order, and at a one-row table hitting the
empty-reindex fallback (no label of the series occurs in the configured
order). -/
theorem C3_witness :
    ((normalized_counts c3wdf "法令名" "法令名").map Prod.snd).sum =
      (normalizedSeries c3wdf "法令名" "法令名").length ∧
    ((multi_value_counts c3wdf "法令名" Option.none).map Prod.snd).sum =
      (explodedValues c3wdf "法令名").length ∧
    ((normalized_counts c3fdf "オンライン化の実施状況"
        "オンライン化の実施状況").map Prod.snd).sum =
      (normalizedSeries c3fdf "オンライン化の実施状況"
        "オンライン化の実施状況").length :=
  ⟨C3_aggregation_conservation_amended.1 c3wdf "法令名" "法令名" (by decide)
      (Or.inl (Or.inl (by decide))),
    C3_aggregation_conservation_amended.2 c3wdf "法令名" (by decide),
    C3_aggregation_conservation_amended.1 c3fdf "オンライン化の実施状況"
      "オンライン化の実施状況" (by decide) (Or.inr (Or.inr (by decide)))⟩

/-! ## C6: Top-N + Other (modelled from the spec) -/

/-- C6: `topn_with_other` conserves the total count for every `top`, and
when the number of distinct labels is at most `top` it returns the full
frequency table unchanged (no "Other" bucket). -/
theorem C6_topn_with_other_conservation (series : List (List Char)) (top : Nat)
    (otherLabel : List Char) :
    ((topn_with_other series top otherLabel).map Prod.snd).sum = series.length ∧
    ((value_counts series).length ≤ top →
      topn_with_other series top otherLabel = value_counts series) := by
  constructor
  · unfold topn_with_other
    by_cases h : (value_counts series).length ≤ top
    · rw [if_pos h]
      exact sum_value_counts series
    · rw [if_neg h, List.map_append, List.sum_append]
      have hsplit := sum_value_counts series
      have hdecomp : (value_counts series).map Prod.snd =
          ((value_counts series).take top).map Prod.snd ++
            ((value_counts series).drop top).map Prod.snd := by
        rw [← List.map_append, List.take_append_drop]
      rw [hdecomp, List.sum_append] at hsplit
      simp only [List.map_cons, List.map_nil, List.sum_cons, List.sum_nil]
      omega
  · intro h
    unfold topn_with_other
    rw [if_pos h]

/-- C6 (witness): conservation at a concrete four-element series with
`top = 1`, and the no-Other case at a series with two distinct labels and
`top = 5`. -/
theorem C6_witness :
    ((topn_with_other ["a".data, "a".data, "b".data, "c".data] 1
      "Other".data).map Prod.snd).sum = 4 ∧
    topn_with_other ["a".data, "b".data] 5 "Other".data =
      value_counts ["a".data, "b".data] :=
  ⟨(C6_topn_with_other_conservation ["a".data, "a".data, "b".data, "c".data] 1
      "Other".data).1,
    (C6_topn_with_other_conservation ["a".data, "b".data] 5 "Other".data).2
      (by decide)⟩

/-! ## C8: splitter tokens are trimmed, non-empty, ordered, not deduplicated -/

/-- C8: every token produced by `split_multi_value` is non-empty and already
trimmed (hence never whitespace-only); tokens keep first-occurrence order
and duplicates within one cell are preserved, as the concrete
`"B、A、B"` run shows. -/
theorem C8_split_tokens_wellformed :
    (∀ (value : PyVal) (t : List Char), t ∈ split_multi_value value →
      t ≠ [] ∧ strip t = t) ∧
    split_multi_value (.str "B、A、B".data) = ["B".data, "A".data, "B".data] := by
  constructor
  · intro value t ht
    cases value with
    | none => exact absurd ht (List.not_mem_nil t)
    | nanFloat => exact absurd ht (List.not_mem_nil t)
    | str v =>
      by_cases hg : strip v = [] ∨ lower (strip v) = ['n', 'a', 'n']
      · rw [show split_multi_value (.str v) = [] from if_pos hg] at ht
        exact absurd ht (List.not_mem_nil t)
      · rw [show split_multi_value (.str v) =
            (reSplit (strip v)).filterMap (fun p =>
              if p ≠ [] ∧ strip p ≠ [] then some (strip p) else none)
            from if_neg hg] at ht
        obtain ⟨p, -, hfp⟩ := List.mem_filterMap.mp ht
        by_cases hc : p ≠ [] ∧ strip p ≠ []
        · rw [if_pos hc] at hfp
          have ht2 : t = strip p := (Option.some_inj.mp hfp).symm
          subst ht2
          exact ⟨hc.2, strip_strip p⟩
        · rw [if_neg hc] at hfp
          exact absurd hfp (by simp)
  · decide

/-- C8 (witness): the theorem applied to the token `"A"` of the concrete
cell `" A 、 B "`. -/
theorem C8_witness : "A".data ≠ [] ∧ strip "A".data = "A".data :=
  C8_split_tokens_wellformed.1 (.str " A 、 B ".data) "A".data (by decide)

/-! ## C9: no canonical order is applied for 手続類型 -/

/-- C9: even though `OPTION_ORDERS` carries an entry for `手続類型`,
`normalized_counts` never applies it for that key: the result is exactly the
raw `value_counts` of the normalized series, in descending-count order. -/
theorem C9_no_order_for_procedure_type (df : DFrame) (column : String)
    (h1 : column ∈ df.cols) (h2 : df.rows.length ≠ 0) :
    (OPTION_ORDERS "手続類型").isSome = true ∧
    normalized_counts df column "手続類型" =
      value_counts (normalizedSeries df column "手続類型") ∧
    (normalized_counts df column "手続類型").Sorted
      (fun a b : List Char × Nat => b.2 ≤ a.2) := by
  have hnc : normalized_counts df column "手続類型" =
      value_counts (normalizedSeries df column "手続類型") := by
    unfold normalized_counts applyOrder
    rw [if_neg (by simp [h1, h2])]
    split
    · rw [if_neg (by simp)]
    · rfl
  refine ⟨by decide, hnc, ?_⟩
  rw [hnc]
  unfold value_counts
  haveI : IsTotal (List Char × Nat) (fun a b => b.2 ≤ a.2) :=
    ⟨fun a b => Nat.le_total b.2 a.2⟩
  haveI : IsTrans (List Char × Nat) (fun a b => b.2 ≤ a.2) :=
    ⟨fun _ _ _ hab hbc => Nat.le_trans hbc hab⟩
  exact List.sorted_insertionSort _ _

/-- Three-row sample table with two distinct procedure types for the C9
witness. -/
def c9row1 : String → Cell := fun _ => Cell.str "申請・届出".data

def c9row2 : String → Cell := fun _ => Cell.str "審査・決定".data

def c9df : DFrame := ⟨["手続類型"], [c9row1, c9row2, c9row1]⟩

/-- C9 (witness): the theorem applied at a concrete three-row table. -/
theorem C9_witness :
    (OPTION_ORDERS "手続類型").isSome = true ∧
    normalized_counts c9df "手続類型" "手続類型" =
      value_counts (normalizedSeries c9df "手続類型" "手続類型") ∧
    (normalized_counts c9df "手続類型" "手続類型").Sorted
      (fun a b : List Char × Nat => b.2 ≤ a.2) :=
  C9_no_order_for_procedure_type c9df "手続類型" (by decide) (by decide)

/-! ## C10: the extra delimiters and delimiter runs -/

/-- C10: newline, the middle dot, the full-width slash and the ASCII slash
are also separators, and any mixed run of two delimiter characters acts as a
single delimiter: no token is produced between consecutive delimiters. -/
theorem C10_extra_delimiters_and_runs :
    (∀ d ∈ ['\n', '・', '／', '/'],
      split_multi_value (.str ['A', d, 'B']) = [['A'], ['B']]) ∧
    (∀ d1 d2 : Char, isDelim d1 = true → isDelim d2 = true →
      split_multi_value (.str ['A', d1, d2, 'B']) = [['A'], ['B']]) := by
  constructor
  · decide
  · intro d1 d2 h1 h2
    have hsA : isSpace 'A' = false := by decide
    have hsB : isSpace 'B' = false := by decide
    have hdA : isDelim 'A' = false := by decide
    have hstrip : strip ['A', d1, d2, 'B'] = ['A', d1, d2, 'B'] := by
      unfold strip rstrip
      rw [List.dropWhile_cons, hsA, if_neg (by simp)]
      rw [show (['A', d1, d2, 'B'] : List Char).reverse = ['B', d2, d1, 'A']
        from rfl]
      rw [List.dropWhile_cons, hsB, if_neg (by simp)]
      rfl
    have hguard : ¬(strip ['A', d1, d2, 'B'] = [] ∨
        lower (strip ['A', d1, d2, 'B']) = ['n', 'a', 'n']) := by
      rw [hstrip]
      rintro (h | h)
      · exact absurd h (by simp)
      · simp [lower] at h
    have hsplit : reSplit ['A', d1, d2, 'B'] = [['A'], ['B']] := by
      show reSplitF [] 4 ['A', d1, d2, 'B'] = [['A'], ['B']]
      rw [reSplitF, hdA, if_neg (by simp), reSplitF, h1, if_pos rfl,
        List.dropWhile_cons, h2, if_pos rfl]
      rfl
    have hval : split_multi_value (.str ['A', d1, d2, 'B']) =
        (reSplit (strip ['A', d1, d2, 'B'])).filterMap fun p =>
          if p ≠ [] ∧ strip p ≠ [] then some (strip p) else none :=
      if_neg (t := ([] : List (List Char))) hguard
    rw [hval, hstrip, hsplit]
    decide

/-- C10 (witness): the theorem applied at the middle dot and at the mixed
run `、/`. -/
theorem C10_witness :
    split_multi_value (.str ['A', '・', 'B']) = [['A'], ['B']] ∧
    split_multi_value (.str ['A', '、', '/', 'B']) = [['A'], ['B']] :=
  ⟨C10_extra_delimiters_and_runs.1 '・' (by decide),
    C10_extra_delimiters_and_runs.2 '、' '/' (by decide) (by decide)⟩

end Proc
